import Mathlib

/-!
# sentiment-go: the LLM reply extraction pipeline and the request validator

A shallow embedding of `internal/client/llm_client.go` and
`internal/service/sentiment_service.go`.

Conventions of the embedding:

* A Go `string` is a Lean `String`; every string the program receives comes out
  of a JSON decoder (the request binding, the completion response), hence is
  valid UTF-8. Where the source indexes or measures a string it works on bytes,
  so those functions take the UTF-8 byte sequence `bytes s`, and `len s` is the
  number of bytes.
* A function that may stop with a run-time panic (a slice expression out of
  range, a nil dereference) returns an `Option` whose `none` is "no result", or
  an `Outcome` with a `panic` constructor.
* A Go result `(v, err)` is an `Outcome`: `ok v` when `err == nil`,
  `error msg` otherwise (the source returns the zero value next to every
  non-nil error).
* `encoding/json` is a library outside the repository: the decoder is the
  parameter `jsonUnmarshal`, giving the decoded value when `json.Unmarshal` into
  an `interface{}` returns no error, and `none` when it returns an error: for a
  text that is not JSON, and for JSON it cannot store, such as a number outside
  the range of `float64`.
* The remote completion endpoint is the parameter `post`, from the request
  sent to the reply received; every function that may call it also returns the
  list of requests it sent.
-/

namespace SentimentApi

/-! ## Go strings as byte sequences -/

/-- The UTF-8 bytes of a string: what Go's `len`, indexing and slicing see. -/
def bytes (s : String) : List UInt8 :=
  s.data.flatMap String.utf8EncodeChar

/-- Go's `len(s)` on a string: the number of bytes. -/
def len (s : String) : Nat :=
  (bytes s).length

/-- The slice expression `s[lo:hi]` on the bytes of a string. It panics (`none`)
unless `0 ≤ lo ≤ hi ≤ len(s)`. -/
def slice (s : List UInt8) (lo hi : Int) : Option (List UInt8) :=
  if 0 ≤ lo ∧ lo ≤ hi ∧ hi ≤ (s.length : Int) then
    some ((s.drop lo.toNat).take (hi.toNat - lo.toNat))
  else
    none

/-! ## `internal/client/llm_client.go`: substring scan -/

/-- The loop of `findSubstring`, `for i := 0; i <= len(text)-len(substr); i++`,
entered at index `i` with a budget of `fuel` evaluations of the loop condition.
The subtraction is Go's signed `int` subtraction. `none` means no result: the
slice expression panicked, or the budget ran out. -/
def findSubstringLoop (text substr : List UInt8) : Nat → Nat → Option Bool
  | 0, _ => none
  | fuel + 1, i =>
    if (i : Int) ≤ (text.length : Int) - (substr.length : Int) then
      match slice text i ((i : Int) + (substr.length : Int)) with
      | none => none
      | some window =>
        if window = substr then some true
        else findSubstringLoop text substr fuel (i + 1)
    else
      some false

/-- `findSubstring(text, substr)`. The loop condition is evaluated at most
`len(text) + 2` times. -/
def findSubstring (text substr : List UInt8) : Option Bool :=
  findSubstringLoop text substr (text.length + 2) 0

/-- `contains(text, substr)`, with the short-circuit evaluation of `&&` and
`||`: a slice expression is evaluated only when the operands before it did not
already decide the result. -/
def contains (text substr : List UInt8) : Option Bool :=
  if text.length ≥ substr.length then
    if text = substr then some true
    else if text.length > substr.length then
      match slice text 0 (substr.length : Int) with
      | none => none
      | some head =>
        if head = substr then some true
        else
          match slice text ((text.length : Int) - (substr.length : Int)) (text.length : Int) with
          | none => none
          | some tail =>
            if tail = substr then some true
            else findSubstring text substr
    else some false
  else some false

/-- `fmt.Sprintf("%s", text)`: the string itself. -/
def sprintfS (text : String) : String := text

/-! ## Results and decoded JSON values -/

/-- What a call of a Go function with result `(v, err)` ends in. -/
inductive Outcome (α : Type) where
  /-- It returned `(value, nil)`. -/
  | ok (value : α)
  /-- It returned the zero value and a non-nil error with message `msg`. -/
  | error (msg : String)
  /-- It stopped with a run-time panic. -/
  | panic
  deriving DecidableEq

/-- The result of the heuristic scan as a Go result: it returns no error. -/
def Outcome.ofScan {α : Type} : Option α → Outcome α
  | some a => Outcome.ok a
  | none => Outcome.panic

/-- The dynamic value `encoding/json` stores in an `interface{}`: `nil`, `bool`,
`float64` (a finite number, kept as a rational), `string`, `[]interface{}` and
`map[string]interface{}` (a key is looked up with `List.lookup`). The same type
carries the plain `string` that `CallTelkomAI` returns for content that is not
JSON. -/
inductive JValue where
  | null
  | bool (b : Bool)
  | number (x : ℚ)
  | string (s : String)
  | array (items : List JValue)
  | object (fields : List (String × JValue))

/-- `json.Unmarshal(data, &m)` with `m` a nil `map[string]interface{}`: a JSON
object fills the map, JSON `null` leaves it nil (no error, no key), any other
JSON value is an `UnmarshalTypeError`, and a text that `json.Unmarshal` rejects
for an `interface{}` (not JSON, or a number outside `float64`) is rejected here
too (`none`). -/
def unmarshalMap (jsonUnmarshal : String → Option JValue) (data : String) :
    Option (List (String × JValue)) :=
  match jsonUnmarshal data with
  | some (JValue.object fields) => some fields
  | some JValue.null => some []
  | _ => none

/-! ## `internal/model/sentiment.go` -/

structure SentimentRequest where
  TextPertanyaan : String
  TextJawaban : String
  /-- The field `Reasoning *bool`. -/
  Reasoning : Option Bool

structure SentimentResponse where
  Sentiment : String
  /-- The field `Reasoning *string`. -/
  Reasoning : Option String
  deriving DecidableEq

structure LLMMessage where
  Role : String
  Content : String
  deriving DecidableEq

/-- The request body. `Temperature` is a `float64` the program only passes on; it
is kept as the literal of the source. -/
structure LLMRequest where
  Model : String
  Messages : List LLMMessage
  Stream : Bool
  MaxTokens : Int
  Temperature : String
  deriving DecidableEq

structure LLMChoice where
  Message : LLMMessage
  Index : Int

/-- What `c.client.R().SetBody(request).SetResult(&response).Post(url)` gives
back: either a non-nil `err`, or a response with `resp.StatusCode()`,
`resp.String()` and the `Choices` the HTTP client decoded into `response`. -/
inductive HTTPReply where
  | failed (err : String)
  | response (statusCode : Int) (body : String) (choices : List LLMChoice)

namespace LLMClient

/-! ## `internal/client/llm_client.go`: extraction -/

/-- `extractSentimentFromString`: the heuristic scan of a reply text. -/
def extractSentimentFromString (text : String) : Option String :=
  let text := sprintfS text
  match contains (bytes text) (bytes "positif") with
  | none => none
  | some true => some "Positif"
  | some false =>
    match contains (bytes text) (bytes "negatif") with
    | none => none
    | some true => some "Negatif"
    | some false =>
      match contains (bytes text) (bytes "netral") with
      | none => none
      | some true => some "Netral"
      | some false => some "Netral"

/-- `normalizeSentiment`: the `switch` over the accepted spellings. -/
def normalizeSentiment (sentiment : String) : String :=
  if sentiment = "Positif" ∨ sentiment = "positif" ∨ sentiment = "POSITIF" ∨
      sentiment = "Positive" ∨ sentiment = "positive" ∨ sentiment = "POSITIVE" then
    "Positif"
  else if sentiment = "Negatif" ∨ sentiment = "negatif" ∨ sentiment = "NEGATIF" ∨
      sentiment = "Negative" ∨ sentiment = "negative" ∨ sentiment = "NEGATIVE" then
    "Negatif"
  else if sentiment = "Netral" ∨ sentiment = "netral" ∨ sentiment = "NETRAL" ∨
      sentiment = "Neutral" ∨ sentiment = "neutral" ∨ sentiment = "NEUTRAL" then
    "Netral"
  else
    "Netral"

/-- The result of `extractSentimentAndReasoningFromResult` once `sentiment` is
known to be the string `sentimentStr`: the reasoning is returned when the key
exists, holds a string, and the string is not empty. -/
def withReasoning (sentimentStr : String) (reasoning : Option JValue) :
    Outcome (String × Option String) :=
  let normalizedSentiment := normalizeSentiment sentimentStr
  match reasoning with
  | some (JValue.string reasoningStr) =>
    if reasoningStr ≠ "" then Outcome.ok (normalizedSentiment, some reasoningStr)
    else Outcome.ok (normalizedSentiment, none)
  | _ => Outcome.ok (normalizedSentiment, none)

/-- `extractSentimentAndReasoningFromResult`. An object that does not return in
the first `if` is not a string either, so it reaches the final error. -/
def extractSentimentAndReasoningFromResult (jsonUnmarshal : String → Option JValue)
    (result : JValue) : Outcome (String × Option String) :=
  match result with
  | JValue.object resultMap =>
    match resultMap.lookup "sentiment" with
    | some (JValue.string sentimentStr) =>
      withReasoning sentimentStr (resultMap.lookup "reasoning")
    | _ => Outcome.error "unable to extract sentiment and reasoning from result"
  | JValue.string resultStr =>
    match unmarshalMap jsonUnmarshal resultStr with
    | some sentimentResult =>
      match sentimentResult.lookup "sentiment" with
      | some (JValue.string sentimentStr) =>
        withReasoning sentimentStr (sentimentResult.lookup "reasoning")
      | _ => Outcome.ofScan ((extractSentimentFromString resultStr).map fun s => (s, none))
    | none => Outcome.ofScan ((extractSentimentFromString resultStr).map fun s => (s, none))
  | _ => Outcome.error "unable to extract sentiment and reasoning from result"

/-- `extractSentimentFromResult`. -/
def extractSentimentFromResult (jsonUnmarshal : String → Option JValue)
    (result : JValue) : Outcome String :=
  match result with
  | JValue.object resultMap =>
    match resultMap.lookup "sentiment" with
    | some (JValue.string sentimentStr) => Outcome.ok (normalizeSentiment sentimentStr)
    | _ => Outcome.error "unable to extract sentiment from result"
  | JValue.string resultStr =>
    match unmarshalMap jsonUnmarshal resultStr with
    | some sentimentResult =>
      match sentimentResult.lookup "sentiment" with
      | some (JValue.string sentimentStr) => Outcome.ok (normalizeSentiment sentimentStr)
      | _ => Outcome.ofScan (extractSentimentFromString resultStr)
    | none => Outcome.ofScan (extractSentimentFromString resultStr)
  | _ => Outcome.error "unable to extract sentiment from result"

/-- `AnalyzeSentiment` from the line after the remote call succeeded (lines
134 to 144): an extraction error becomes the label `Netral`. -/
def analyzeSentimentAfterCall (jsonUnmarshal : String → Option JValue)
    (result : JValue) : Outcome String :=
  match extractSentimentFromResult jsonUnmarshal result with
  | Outcome.error _ => Outcome.ok "Netral"
  | Outcome.ok sentiment => Outcome.ok sentiment
  | Outcome.panic => Outcome.panic

/-- `AnalyzeSentimentWithReasoning` from the line after the remote call
succeeded (lines 187 to 202): on an extraction error the label-only extractor
is tried on the same result. -/
def analyzeSentimentWithReasoningAfterCall (jsonUnmarshal : String → Option JValue)
    (result : JValue) : Outcome (String × Option String) :=
  match extractSentimentAndReasoningFromResult jsonUnmarshal result with
  | Outcome.error _ =>
    match extractSentimentFromResult jsonUnmarshal result with
    | Outcome.error _ => Outcome.ok ("Netral", none)
    | Outcome.ok basicSentiment => Outcome.ok (basicSentiment, none)
    | Outcome.panic => Outcome.panic
  | Outcome.ok (sentiment, reasoning) => Outcome.ok (sentiment, reasoning)
  | Outcome.panic => Outcome.panic

/-! ## `internal/client/llm_client.go`: the remote call -/

/-- The end of `CallTelkomAI` (lines 84 to 95): content that parses as JSON is
returned decoded, any other content as the string it is. -/
def decodeContent (jsonUnmarshal : String → Option JValue) (content : String) : JValue :=
  match jsonUnmarshal content with
  | some parsedContent => parsedContent
  | none => JValue.string content

/-- The request body `CallTelkomAI` builds from its arguments. -/
def buildRequest (messages : List LLMMessage) (modelName : String) (maxTokens : Int)
    (temperature : String) : LLMRequest :=
  { Model := modelName, Messages := messages, Stream := false,
    MaxTokens := maxTokens, Temperature := temperature }

/-- `CallTelkomAI`, with the list of requests sent. -/
def CallTelkomAI (jsonUnmarshal : String → Option JValue) (post : LLMRequest → HTTPReply)
    (messages : List LLMMessage) (modelName : String) (maxTokens : Int)
    (temperature : String) : Outcome JValue × List LLMRequest :=
  let request := buildRequest messages modelName maxTokens temperature
  match post request with
  | HTTPReply.failed err => (Outcome.error ("request failed: " ++ err), [request])
  | HTTPReply.response statusCode body choices =>
    if statusCode ≠ 200 then
      (Outcome.error ("response error " ++ toString statusCode ++ ": " ++ body), [request])
    else
      match choices with
      | [] => (Outcome.error "no choices in response", [request])
      | choice :: _ => (Outcome.ok (decodeContent jsonUnmarshal choice.Message.Content), [request])

/-- The system prompt of `AnalyzeSentiment`. -/
def systemPrompt : String :=
  "Anda adalah sistem analisis sentimen yang sangat akurat. Tugas Anda adalah menganalisis sentimen dari jawaban terhadap pertanyaan yang diberikan.\n\n" ++
  "Berdasarkan konteks pertanyaan dan jawaban, tentukan sentimen jawaban tersebut:\n" ++
  "- Positif: Jawaban menunjukkan emosi atau pandangan yang baik, puas, senang, atau mendukung\n" ++
  "- Negatif: Jawaban menunjukkan emosi atau pandangan yang buruk, tidak puas, kecewa, atau menolak  \n" ++
  "- Netral: Jawaban objektif, tidak menunjukkan emosi khusus, atau seimbang\n\n" ++
  "Respons Anda harus dalam format JSON yang valid:\n" ++
  "\x7b\"sentiment\": \"Positif\"\x7d atau \x7b\"sentiment\": \"Negatif\"\x7d atau \x7b\"sentiment\": \"Netral\"\x7d\n\n" ++
  "Hanya gunakan kata: Positif, Negatif, atau Netral."

/-- The system prompt of `AnalyzeSentimentWithReasoning`. -/
def systemPromptWithReasoning : String :=
  "Anda adalah sistem analisis sentimen yang sangat akurat dan dapat memberikan penjelasan. Tugas Anda adalah menganalisis sentimen dari jawaban terhadap pertanyaan yang diberikan, beserta alasan analisis tersebut.\n\n" ++
  "Berdasarkan konteks pertanyaan dan jawaban, tentukan sentimen jawaban tersebut:\n" ++
  "- Positif: Jawaban menunjukkan emosi atau pandangan yang baik, puas, senang, atau mendukung\n" ++
  "- Negatif: Jawaban menunjukkan emosi atau pandangan yang buruk, tidak puas, kecewa, atau menolak  \n" ++
  "- Netral: Jawaban objektif, tidak menunjukkan emosi khusus, atau seimbang\n\n" ++
  "Respons Anda harus dalam format JSON yang valid dengan penjelasan:\n" ++
  "\x7b\n" ++
  "  \"sentiment\": \"Positif\",\n" ++
  "  \"reasoning\": \"Penjelasan mengapa sentimen ini dipilih, kata-kata kunci yang mendukung, dan konteks yang relevan\"\n" ++
  "\x7d\n\n" ++
  "Hanya gunakan kata: Positif, Negatif, atau Netral untuk sentiment.\n" ++
  "Berikan penjelasan yang jelas dan informatif dalam bahasa Indonesia untuk reasoning."

/-- The two messages both analyses send: the system prompt, then the user
prompt built by `fmt.Sprintf` from the question, the answer and a closing
instruction. -/
def buildMessages (system closing textPertanyaan textJawaban : String) : List LLMMessage :=
  [ { Role := "system", Content := system },
    { Role := "user",
      Content := "Pertanyaan: " ++ textPertanyaan ++ "\n\nJawaban: " ++ textJawaban ++
        "\n\n" ++ closing } ]

/-- `LLMClient.AnalyzeSentiment`, with the list of requests sent. -/
def AnalyzeSentiment (jsonUnmarshal : String → Option JValue) (post : LLMRequest → HTTPReply)
    (textPertanyaan textJawaban : String) : Outcome String × List LLMRequest :=
  let messages := buildMessages systemPrompt
    "Analisis sentimen jawaban tersebut berdasarkan konteks pertanyaan."
    textPertanyaan textJawaban
  match CallTelkomAI jsonUnmarshal post messages "telkom-ai-instruct" 100 "0.0" with
  | (Outcome.error err, sent) => (Outcome.error err, sent)
  | (Outcome.panic, sent) => (Outcome.panic, sent)
  | (Outcome.ok result, sent) => (analyzeSentimentAfterCall jsonUnmarshal result, sent)

/-- `LLMClient.AnalyzeSentimentWithReasoning`, with the list of requests sent. -/
def AnalyzeSentimentWithReasoning (jsonUnmarshal : String → Option JValue)
    (post : LLMRequest → HTTPReply) (textPertanyaan textJawaban : String) :
    Outcome (String × Option String) × List LLMRequest :=
  let messages := buildMessages systemPromptWithReasoning
    "Analisis sentimen jawaban tersebut berdasarkan konteks pertanyaan dan berikan penjelasan lengkap."
    textPertanyaan textJawaban
  match CallTelkomAI jsonUnmarshal post messages "telkom-ai-instruct" 300 "0.1" with
  | (Outcome.error err, sent) => (Outcome.error err, sent)
  | (Outcome.panic, sent) => (Outcome.panic, sent)
  | (Outcome.ok result, sent) => (analyzeSentimentWithReasoningAfterCall jsonUnmarshal result, sent)

end LLMClient

/-! ## `internal/service/sentiment_service.go` -/

/-- Go's `unicode.IsSpace` (standard library): the Latin-1 spaces and the code
points with the Unicode property `White_Space`. -/
def isSpace (r : Char) : Bool :=
  r = '\t' || r = '\n' || r = '\x0b' || r = '\x0c' || r = '\r' || r = ' ' ||
  r.toNat = 0x85 || r.toNat = 0xA0 || r.toNat = 0x1680 ||
  (0x2000 ≤ r.toNat && r.toNat ≤ 0x200A) ||
  r.toNat = 0x2028 || r.toNat = 0x2029 || r.toNat = 0x202F || r.toNat = 0x205F ||
  r.toNat = 0x3000

/-- Go's `strings.TrimSpace` (standard library) on valid UTF-8: the string
without its leading and trailing `unicode.IsSpace` characters. -/
def TrimSpace (s : String) : String :=
  String.mk ((s.data.dropWhile isSpace).reverse.dropWhile isSpace).reverse

namespace SentimentService

/-- `validateRequest`; `req` is a pointer, `none` the nil pointer. The result is
the Go `error`: `Except.ok ()` for `nil`. -/
def validateRequest (req : Option SentimentRequest) : Except String Unit :=
  match req with
  | none => Except.error "request cannot be nil"
  | some req =>
    if TrimSpace req.TextPertanyaan = "" then
      Except.error "text_pertanyaan cannot be empty"
    else if TrimSpace req.TextJawaban = "" then
      Except.error "text_jawaban cannot be empty"
    else if len req.TextPertanyaan > 1000 then
      Except.error "text_pertanyaan exceeds maximum length of 1000 characters"
    else if len req.TextJawaban > 2000 then
      Except.error "text_jawaban exceeds maximum length of 2000 characters"
    else
      Except.ok ()

/-- `SentimentService.AnalyzeSentiment`, with the list of requests sent to the
remote endpoint. The first statement reads `req.TextPertanyaan` for the log
line, so a nil `req` panics before the validation. -/
def AnalyzeSentiment (jsonUnmarshal : String → Option JValue) (post : LLMRequest → HTTPReply)
    (req : Option SentimentRequest) : Outcome SentimentResponse × List LLMRequest :=
  match req with
  | none => (Outcome.panic, [])
  | some r =>
    match validateRequest (some r) with
    | Except.error err => (Outcome.error err, [])
    | Except.ok _ =>
      let requestReasoning := match r.Reasoning with
        | some b => b
        | none => false
      if requestReasoning then
        match LLMClient.AnalyzeSentimentWithReasoning jsonUnmarshal post
            r.TextPertanyaan r.TextJawaban with
        | (Outcome.error err, sent) => (Outcome.error err, sent)
        | (Outcome.panic, sent) => (Outcome.panic, sent)
        | (Outcome.ok (sentiment, reasoning), sent) =>
          (Outcome.ok { Sentiment := sentiment, Reasoning := reasoning }, sent)
      else
        match LLMClient.AnalyzeSentiment jsonUnmarshal post r.TextPertanyaan r.TextJawaban with
        | (Outcome.error err, sent) => (Outcome.error err, sent)
        | (Outcome.panic, sent) => (Outcome.panic, sent)
        | (Outcome.ok sentiment, sent) =>
          (Outcome.ok { Sentiment := sentiment, Reasoning := none }, sent)

/-- `GetSupportedSentiments`. -/
def GetSupportedSentiments : List String :=
  ["Positif", "Negatif", "Netral"]

end SentimentService

/-! ## Reply texts of the examples -/

/-- The values `encoding/json` decodes the JSON reply texts of the examples
to; on every other text of the examples `json.Unmarshal` returns an error:
they are not JSON, except `[1e400, "positif"]`, whose number is outside the
range of `float64`. A table for concrete evaluation only: the general
statements hold for every decoder. -/
def exampleUnmarshal (data : String) : Option JValue :=
  if data = "\x7b\"sentiment\":\"Positive\"\x7d" then
    some (JValue.object [("sentiment", JValue.string "Positive")])
  else if data = "\x7b\"sentiment\":\"negative\",\"reasoning\":\"kata kunci negatif\"\x7d" then
    some (JValue.object [("sentiment", JValue.string "negative"),
      ("reasoning", JValue.string "kata kunci negatif")])
  else if data = "[\"positif\"]" then
    some (JValue.array [JValue.string "positif"])
  else if data = "\x7b\"sentiment\": 1, \"note\": \"negatif\"\x7d" then
    some (JValue.object [("sentiment", JValue.number 1), ("note", JValue.string "negatif")])
  else
    none

/-! ## The substring scan decides byte containment -/

theorem slice_of_le (s : List UInt8) (lo hi : Nat) (h₁ : lo ≤ hi) (h₂ : hi ≤ s.length) :
    slice s (lo : Int) (hi : Int) = some ((s.drop lo).take (hi - lo)) := by
  unfold slice
  have h : (0 : Int) ≤ (lo : Int) ∧ (lo : Int) ≤ (hi : Int) ∧ (hi : Int) ≤ (s.length : Int) := by
    omega
  simp [h]

theorem infix_iff_window (text substr : List UInt8) :
    substr <:+: text ↔
      ∃ j, j + substr.length ≤ text.length ∧ (text.drop j).take substr.length = substr := by
  constructor
  · rintro ⟨s, t, rfl⟩
    refine ⟨s.length, ?_, ?_⟩
    · simp only [List.length_append]; omega
    · simp [List.append_assoc]
  · rintro ⟨j, _, hj⟩
    refine ⟨text.take j, (text.drop j).drop substr.length, ?_⟩
    have h := List.take_append_drop substr.length (text.drop j)
    rw [hj] at h
    rw [List.append_assoc, h, List.take_append_drop]

theorem findSubstringLoop_spec (text substr : List UInt8) :
    ∀ fuel i : Nat, 1 ≤ fuel → text.length + 2 ≤ fuel + i →
      ∃ b, findSubstringLoop text substr fuel i = some b ∧
        (b = true ↔ ∃ j, i ≤ j ∧ j + substr.length ≤ text.length ∧
          (text.drop j).take substr.length = substr) := by
  intro fuel
  induction fuel with
  | zero => intro i h; omega
  | succ fuel ih =>
    intro i _ hfuel
    unfold findSubstringLoop
    by_cases hc : (i : Int) ≤ (text.length : Int) - (substr.length : Int)
    · have hle : i + substr.length ≤ text.length := by omega
      have hs : slice text (i : Int) ((i : Int) + (substr.length : Int)) =
          some ((text.drop i).take substr.length) := by
        have := slice_of_le text i (i + substr.length) (by omega) hle
        simpa using this
      simp only [hc, if_true, hs]
      by_cases hw : (text.drop i).take substr.length = substr
      · simp only [hw, if_true]
        exact ⟨true, rfl, fun _ => ⟨i, le_refl i, hle, hw⟩, fun _ => rfl⟩
      · simp only [hw, if_false]
        obtain ⟨b, hb, hiff⟩ := ih (i + 1) (by omega) (by omega)
        refine ⟨b, hb, hiff.trans ⟨?_, ?_⟩⟩
        · rintro ⟨j, hj, h₁, h₂⟩
          exact ⟨j, by omega, h₁, h₂⟩
        · rintro ⟨j, hj, h₁, h₂⟩
          have hne : j ≠ i := by
            rintro rfl
            exact hw h₂
          exact ⟨j, by omega, h₁, h₂⟩
    · simp only [hc, if_false]
      refine ⟨false, rfl, ⟨fun h => Bool.noConfusion h, ?_⟩⟩
      rintro ⟨j, hj, h₁, _⟩
      omega

theorem findSubstring_eq (text substr : List UInt8) :
    findSubstring text substr = some (decide (substr <:+: text)) := by
  unfold findSubstring
  obtain ⟨b, hb, hiff⟩ :=
    findSubstringLoop_spec text substr (text.length + 2) 0 (by omega) (by omega)
  rw [hb]
  congr 1
  have hb' : b = true ↔ substr <:+: text := by
    rw [hiff, infix_iff_window]
    constructor
    · rintro ⟨j, _, h₁, h₂⟩
      exact ⟨j, h₁, h₂⟩
    · rintro ⟨j, h₁, h₂⟩
      exact ⟨j, Nat.zero_le j, h₁, h₂⟩
  cases b with
  | true => exact (decide_eq_true (hb'.mp rfl)).symm
  | false => exact (decide_eq_false (fun h => Bool.noConfusion (hb'.mpr h))).symm

theorem contains_eq (text substr : List UInt8) :
    contains text substr = some (decide (substr <:+: text)) := by
  unfold contains
  by_cases hlen : text.length ≥ substr.length
  · simp only [hlen, if_true]
    by_cases heq : text = substr
    · simp [heq]
    · simp only [heq, if_false]
      by_cases hgt : text.length > substr.length
      · simp only [hgt, if_true]
        have h₁ : slice text 0 (substr.length : Int) = some (text.take substr.length) := by
          have := slice_of_le text 0 substr.length (Nat.zero_le _) hlen
          simpa using this
        have h₂ : slice text ((text.length : Int) - (substr.length : Int)) (text.length : Int) =
            some (text.drop (text.length - substr.length)) := by
          have := slice_of_le text (text.length - substr.length) text.length (by omega)
            (le_refl _)
          rw [Nat.cast_sub hlen] at this
          rw [this]
          congr 1
          apply List.take_of_length_le
          simp
        simp only [h₁, h₂]
        by_cases hp : text.take substr.length = substr
        · simp only [hp, if_true]
          congr 1
          symm
          apply decide_eq_true
          rw [← hp]
          exact (List.take_prefix _ _).isInfix
        · simp only [hp, if_false]
          by_cases hq : text.drop (text.length - substr.length) = substr
          · simp only [hq, if_true]
            congr 1
            symm
            apply decide_eq_true
            rw [← hq]
            exact (List.drop_suffix _ _).isInfix
          · simp only [hq, if_false]
            exact findSubstring_eq text substr
      · simp only [hgt, if_false]
        congr 1
        symm
        apply decide_eq_false
        intro hin
        exact heq (hin.eq_of_length (by omega)).symm
  · simp only [hlen, if_false]
    congr 1
    symm
    apply decide_eq_false
    intro hin
    exact hlen hin.length_le

/-! ## Tokens of ASCII characters -/

theorem high_bit_or (a k : UInt8) (hk : k.toNat.testBit 7 = true) : 128 ≤ (a ||| k).toNat := by
  show 128 ≤ (a.toBitVec ||| k.toBitVec).toNat
  rw [BitVec.toNat_or]
  apply Nat.testBit_implies_ge (i := 7)
  rw [Nat.testBit_or]
  have hk' : k.toBitVec.toNat.testBit 7 = true := hk
  simp [hk']

theorem utf8EncodeChar_ascii (c : Char) (h : c.val ≤ 127) :
    String.utf8EncodeChar c = [c.val.toUInt8] := by
  simp [String.utf8EncodeChar, h]

theorem toUInt8_toNat_of_ascii (c : Char) (h : c.val ≤ 127) :
    c.val.toUInt8.toNat = c.val.toNat := by
  have h' : c.val.toNat ≤ 127 := h
  show (UInt8.ofNat c.val.toNat).toNat = c.val.toNat
  show (BitVec.ofNat 8 c.val.toNat).toNat = c.val.toNat
  rw [BitVec.toNat_ofNat]
  omega

theorem utf8EncodeChar_high (c : Char) (h : ¬ c.val ≤ 127) :
    ∀ b ∈ String.utf8EncodeChar c, 128 ≤ b.toNat := by
  intro b hb
  unfold String.utf8EncodeChar at hb
  simp only [h, if_false] at hb
  split_ifs at hb <;>
    simp only [List.mem_cons, List.mem_singleton, List.not_mem_nil, or_false] at hb <;>
    rcases hb with rfl | rfl | rfl | rfl <;>
    exact high_bit_or _ _ (by decide)

theorem ascii_eq_of_byte_eq (c d : Char) (hc : c.val ≤ 127) (hd : d.val ≤ 127)
    (h : c.val.toUInt8 = d.val.toUInt8) : c = d := by
  have h₁ := toUInt8_toNat_of_ascii c hc
  have h₂ := toUInt8_toNat_of_ascii d hd
  rw [h] at h₁
  have hval : c.val.toNat = d.val.toNat := by rw [← h₁, ← h₂]
  apply Char.ext
  exact UInt32.ext hval

/-- A byte sequence that starts with an ASCII byte and lies inside `high ++ rest`,
where every byte of `high` has its high bit set, lies inside `rest`. -/
theorem infix_skip_high (x : UInt8) (xs high rest : List UInt8) (hx : x.toNat < 128)
    (hhigh : ∀ b ∈ high, 128 ≤ b.toNat) (h : x :: xs <:+: high ++ rest) :
    x :: xs <:+: rest := by
  induction high with
  | nil => simpa using h
  | cons b bs ih =>
    rw [List.cons_append, List.infix_cons_iff] at h
    rcases h with h | h
    · rw [List.cons_prefix_cons] at h
      have := hhigh b (List.mem_cons_self _ _)
      rw [← h.1] at this
      omega
    · exact ih (fun b' hb' => hhigh b' (List.mem_cons_of_mem _ hb')) h

theorem chars_prefix_of_bytes (p : List Char) (hp : ∀ c ∈ p, c.val ≤ 127) :
    ∀ t : List Char, p.flatMap String.utf8EncodeChar <+: t.flatMap String.utf8EncodeChar →
      p <+: t := by
  induction p with
  | nil => intro t _; exact List.nil_prefix
  | cons c p ih =>
    intro t h
    have hc : c.val ≤ 127 := hp c (List.mem_cons_self _ _)
    rw [List.flatMap_cons, utf8EncodeChar_ascii c hc, List.singleton_append] at h
    cases t with
    | nil =>
      rw [List.flatMap_nil] at h
      exact absurd (List.prefix_nil.mp h) (List.cons_ne_nil _ _)
    | cons d t =>
      rw [List.flatMap_cons] at h
      by_cases hd : d.val ≤ 127
      · rw [utf8EncodeChar_ascii d hd, List.singleton_append, List.cons_prefix_cons] at h
        have hcd := ascii_eq_of_byte_eq c d hc hd h.1
        subst hcd
        rw [List.cons_prefix_cons]
        exact ⟨rfl, ih (fun c' hc' => hp c' (List.mem_cons_of_mem _ hc')) t h.2⟩
      · exfalso
        have hhigh := utf8EncodeChar_high d hd
        have hlen : 0 < (String.utf8EncodeChar d).length := by
          rw [String.length_utf8EncodeChar]; exact Char.utf8Size_pos d
        cases he : String.utf8EncodeChar d with
        | nil => rw [he] at hlen; simp at hlen
        | cons b bs =>
          rw [he, List.cons_append, List.cons_prefix_cons] at h
          have hb := hhigh b (by rw [he]; exact List.mem_cons_self _ _)
          have hlt : c.val.toUInt8.toNat < 128 := by
            rw [toUInt8_toNat_of_ascii c hc]
            have : c.val.toNat ≤ 127 := hc
            omega
          rw [h.1] at hlt
          omega

theorem chars_infix_of_bytes (p : List Char) (hp : ∀ c ∈ p, c.val ≤ 127) :
    ∀ t : List Char, p.flatMap String.utf8EncodeChar <:+: t.flatMap String.utf8EncodeChar →
      p <:+: t := by
  cases p with
  | nil => intro t _; exact List.nil_infix
  | cons c p =>
    have hc : c.val ≤ 127 := hp c (List.mem_cons_self _ _)
    have hlt : c.val.toUInt8.toNat < 128 := by
      rw [toUInt8_toNat_of_ascii c hc]
      have : c.val.toNat ≤ 127 := hc
      omega
    intro t
    induction t with
    | nil =>
      intro h
      rw [List.flatMap_nil, List.flatMap_cons, utf8EncodeChar_ascii c hc] at h
      exact absurd (List.infix_nil.mp h) (List.cons_ne_nil _ _)
    | cons d t ih =>
      intro h
      by_cases hd : d.val ≤ 127
      · have h' := h
        rw [List.flatMap_cons (f := String.utf8EncodeChar) d t, utf8EncodeChar_ascii d hd,
          List.singleton_append, List.infix_cons_iff] at h'
        rcases h' with h' | h'
        · have hpre : (c :: p).flatMap String.utf8EncodeChar <+:
              (d :: t).flatMap String.utf8EncodeChar := by
            rw [List.flatMap_cons (f := String.utf8EncodeChar) d t, utf8EncodeChar_ascii d hd,
              List.singleton_append]
            exact h'
          exact (chars_prefix_of_bytes (c :: p) hp (d :: t) hpre).isInfix
        · exact List.infix_cons (ih h')
      · rw [List.flatMap_cons (f := String.utf8EncodeChar) d t,
          List.flatMap_cons (f := String.utf8EncodeChar) c p, utf8EncodeChar_ascii c hc,
          List.singleton_append] at h
        have h' := infix_skip_high _ _ _ _ hlt (utf8EncodeChar_high d hd) h
        apply List.infix_cons
        apply ih
        rw [List.flatMap_cons, utf8EncodeChar_ascii c hc, List.singleton_append]
        exact h'

/-- For a token of ASCII characters, containment of its bytes in the bytes of a
text is containment of its characters in the characters of the text. -/
theorem bytes_infix_iff (token text : String) (hascii : ∀ c ∈ token.data, c.val ≤ 127) :
    bytes token <:+: bytes text ↔ token.data <:+: text.data := by
  constructor
  · exact chars_infix_of_bytes token.data hascii text.data
  · rintro ⟨s, r, h⟩
    unfold bytes
    rw [← h, List.flatMap_append, List.flatMap_append]
    exact ⟨_, _, rfl⟩

namespace LLMClient

/-- The label the heuristic scan gives, by the tokens the text contains. -/
theorem extractSentimentFromString_eq (text : String) :
    extractSentimentFromString text =
      some (if bytes "positif" <:+: bytes text then "Positif"
        else if bytes "negatif" <:+: bytes text then "Negatif" else "Netral") := by
  unfold extractSentimentFromString sprintfS
  simp only [contains_eq]
  by_cases h₁ : bytes "positif" <:+: bytes text
  · simp [h₁]
  · by_cases h₂ : bytes "negatif" <:+: bytes text
    · simp [h₁, h₂]
    · by_cases h₃ : bytes "netral" <:+: bytes text
      · simp [h₁, h₂, h₃]
      · simp [h₁, h₂, h₃]

theorem extractSentimentFromString_mem (text : String) :
    ∃ l, extractSentimentFromString text = some l ∧
      l ∈ SentimentService.GetSupportedSentiments := by
  rw [extractSentimentFromString_eq]
  refine ⟨_, rfl, ?_⟩
  unfold SentimentService.GetSupportedSentiments
  split_ifs <;> simp

theorem normalizeSentiment_cases (x : String) :
    normalizeSentiment x = "Positif" ∨ normalizeSentiment x = "Negatif" ∨
      normalizeSentiment x = "Netral" := by
  unfold normalizeSentiment
  split_ifs <;> simp

theorem normalizeSentiment_mem (x : String) :
    normalizeSentiment x ∈ SentimentService.GetSupportedSentiments := by
  unfold SentimentService.GetSupportedSentiments
  rcases normalizeSentiment_cases x with h | h | h <;> simp [h]

theorem withReasoning_label (s : String) (reasoning : Option JValue) :
    ∃ r, withReasoning s reasoning = Outcome.ok (normalizeSentiment s, r) := by
  unfold withReasoning
  split
  · split_ifs
    · exact ⟨_, rfl⟩
    · exact ⟨_, rfl⟩
  · exact ⟨_, rfl⟩

/-- The label-only extractor ends in a canonical label or in its error, never in
a panic. -/
theorem extractSentimentFromResult_total (jsonUnmarshal : String → Option JValue)
    (result : JValue) :
    (∃ l, extractSentimentFromResult jsonUnmarshal result = Outcome.ok l ∧
        l ∈ SentimentService.GetSupportedSentiments) ∨
      extractSentimentFromResult jsonUnmarshal result =
        Outcome.error "unable to extract sentiment from result" := by
  have hscan : ∀ text, ∃ l, Outcome.ofScan (extractSentimentFromString text) = Outcome.ok l ∧
      l ∈ SentimentService.GetSupportedSentiments := by
    intro text
    obtain ⟨l, hl, hmem⟩ := extractSentimentFromString_mem text
    exact ⟨l, by rw [hl]; rfl, hmem⟩
  unfold extractSentimentFromResult
  split
  · split
    · exact Or.inl ⟨_, rfl, normalizeSentiment_mem _⟩
    · exact Or.inr rfl
  · split
    · split
      · exact Or.inl ⟨_, rfl, normalizeSentiment_mem _⟩
      · exact Or.inl (hscan _)
    · exact Or.inl (hscan _)
  · exact Or.inr rfl

/-- The extractor with reasoning ends in a canonical label or in its error, never
in a panic. -/
theorem extractSentimentAndReasoningFromResult_total
    (jsonUnmarshal : String → Option JValue) (result : JValue) :
    (∃ l r, extractSentimentAndReasoningFromResult jsonUnmarshal result = Outcome.ok (l, r) ∧
        l ∈ SentimentService.GetSupportedSentiments) ∨
      extractSentimentAndReasoningFromResult jsonUnmarshal result =
        Outcome.error "unable to extract sentiment and reasoning from result" := by
  have hscan : ∀ text, ∃ l r,
      Outcome.ofScan ((extractSentimentFromString text).map fun s => (s, (none : Option String)))
        = Outcome.ok (l, r) ∧ l ∈ SentimentService.GetSupportedSentiments := by
    intro text
    obtain ⟨l, hl, hmem⟩ := extractSentimentFromString_mem text
    exact ⟨l, none, by rw [hl]; rfl, hmem⟩
  have hwith : ∀ s reasoning, ∃ l r, withReasoning s reasoning = Outcome.ok (l, r) ∧
      l ∈ SentimentService.GetSupportedSentiments := by
    intro s reasoning
    obtain ⟨r, hr⟩ := withReasoning_label s reasoning
    exact ⟨_, r, hr, normalizeSentiment_mem s⟩
  unfold extractSentimentAndReasoningFromResult
  split
  · split
    · exact Or.inl (hwith _ _)
    · exact Or.inr rfl
  · split
    · split
      · exact Or.inl (hwith _ _)
      · exact Or.inl (hscan _)
    · exact Or.inl (hscan _)
  · exact Or.inr rfl

end LLMClient

/-! ## Claims -/

/-- C1. For every value the content decoder can hand on (a string or any decoded
JSON value) and every JSON decoder, the part of `LLMClient.AnalyzeSentiment` and
of `LLMClient.AnalyzeSentimentWithReasoning` after a successful remote call
returns, without error and without panic, a label that is one of `Positif`,
`Negatif`, `Netral`; and whenever `extractSentimentFromResult` or
`extractSentimentAndReasoningFromResult` returns without error, its label is one
of those three. -/
theorem C1_label_is_canonical (jsonUnmarshal : String → Option JValue) (result : JValue) :
    (∃ l, LLMClient.analyzeSentimentAfterCall jsonUnmarshal result = Outcome.ok l ∧
        l ∈ SentimentService.GetSupportedSentiments) ∧
    (∃ l r, LLMClient.analyzeSentimentWithReasoningAfterCall jsonUnmarshal result =
        Outcome.ok (l, r) ∧ l ∈ SentimentService.GetSupportedSentiments) ∧
    (∀ l, LLMClient.extractSentimentFromResult jsonUnmarshal result = Outcome.ok l →
        l ∈ SentimentService.GetSupportedSentiments) ∧
    (∀ l r, LLMClient.extractSentimentAndReasoningFromResult jsonUnmarshal result =
        Outcome.ok (l, r) → l ∈ SentimentService.GetSupportedSentiments) := by
  have hnetral : "Netral" ∈ SentimentService.GetSupportedSentiments := by
    simp [SentimentService.GetSupportedSentiments]
  have h₁ := LLMClient.extractSentimentFromResult_total jsonUnmarshal result
  have h₂ := LLMClient.extractSentimentAndReasoningFromResult_total jsonUnmarshal result
  refine ⟨?_, ?_, ?_, ?_⟩
  · unfold LLMClient.analyzeSentimentAfterCall
    rcases h₁ with ⟨l, hl, hmem⟩ | herr
    · rw [hl]; exact ⟨l, rfl, hmem⟩
    · rw [herr]; exact ⟨_, rfl, hnetral⟩
  · unfold LLMClient.analyzeSentimentWithReasoningAfterCall
    rcases h₂ with ⟨l, r, hl, hmem⟩ | herr
    · rw [hl]; exact ⟨l, r, rfl, hmem⟩
    · rw [herr]
      rcases h₁ with ⟨l, hl, hmem⟩ | herr₁
      · rw [hl]; exact ⟨l, none, rfl, hmem⟩
      · rw [herr₁]; exact ⟨_, none, rfl, hnetral⟩
  · intro l hl
    rcases h₁ with ⟨l', hl', hmem⟩ | herr
    · rw [hl'] at hl
      cases hl
      exact hmem
    · rw [herr] at hl
      cases hl
  · intro l r hl
    rcases h₂ with ⟨l', r', hl', hmem⟩ | herr
    · rw [hl'] at hl
      cases hl
      exact hmem
    · rw [herr] at hl
      cases hl

/-- C1 at the reply text `Sentimen: positif`, which is not JSON. -/
theorem C1_label_is_canonical_witness :
    LLMClient.extractSentimentFromResult exampleUnmarshal (JValue.string "Sentimen: positif") =
        Outcome.ok "Positif" ∧
      "Positif" ∈ SentimentService.GetSupportedSentiments :=
  ⟨by decide,
    (C1_label_is_canonical exampleUnmarshal (JValue.string "Sentimen: positif")).2.2.1
      "Positif" (by decide)⟩

/-- C2. For every decoded JSON object whose `sentiment` value is a string `s`,
`extractSentimentAndReasoningFromResult` returns no error and the label
`normalizeSentiment s`; it returns the reasoning `r` when the object's
`reasoning` value is a non-empty string `r`, and no reasoning otherwise (key
absent, value not a string, or the empty string); `extractSentimentFromResult`
returns `normalizeSentiment s` on the same object. -/
theorem C2_structured_extraction (jsonUnmarshal : String → Option JValue)
    (fields : List (String × JValue)) (s : String)
    (hs : fields.lookup "sentiment" = some (JValue.string s)) :
    (∀ r, fields.lookup "reasoning" = some (JValue.string r) → r ≠ "" →
        LLMClient.extractSentimentAndReasoningFromResult jsonUnmarshal (JValue.object fields) =
          Outcome.ok (LLMClient.normalizeSentiment s, some r)) ∧
    ((∀ r, fields.lookup "reasoning" = some (JValue.string r) → r = "") →
        LLMClient.extractSentimentAndReasoningFromResult jsonUnmarshal (JValue.object fields) =
          Outcome.ok (LLMClient.normalizeSentiment s, none)) ∧
    LLMClient.extractSentimentFromResult jsonUnmarshal (JValue.object fields) =
      Outcome.ok (LLMClient.normalizeSentiment s) := by
  refine ⟨?_, ?_, ?_⟩
  · intro r hr hne
    simp only [LLMClient.extractSentimentAndReasoningFromResult, hs, hr,
      LLMClient.withReasoning]
    simp [hne]
  · intro hnone
    simp only [LLMClient.extractSentimentAndReasoningFromResult, hs]
    unfold LLMClient.withReasoning
    split
    · next r hr =>
      have := hnone r hr
      simp [this]
    · rfl
  · simp only [LLMClient.extractSentimentFromResult, hs]

/-- C2 at the two objects of the specification: `sentiment` = `Positive` alone
gives `Positif` without reasoning, and `sentiment` = `negative` with the
reasoning `kata kunci negatif` gives `Negatif` with that reasoning. -/
theorem C2_structured_extraction_witness :
    LLMClient.extractSentimentAndReasoningFromResult exampleUnmarshal
        (JValue.object [("sentiment", JValue.string "Positive")]) =
      Outcome.ok ("Positif", none) ∧
    LLMClient.extractSentimentFromResult exampleUnmarshal
        (JValue.object [("sentiment", JValue.string "Positive")]) = Outcome.ok "Positif" ∧
    LLMClient.extractSentimentAndReasoningFromResult exampleUnmarshal
        (JValue.object [("sentiment", JValue.string "negative"),
          ("reasoning", JValue.string "kata kunci negatif")]) =
      Outcome.ok ("Negatif", some "kata kunci negatif") := by
  have hP : LLMClient.normalizeSentiment "Positive" = "Positif" := by decide
  have hN : LLMClient.normalizeSentiment "negative" = "Negatif" := by decide
  have h₁ := C2_structured_extraction exampleUnmarshal
    [("sentiment", JValue.string "Positive")] "Positive" rfl
  have h₂ := C2_structured_extraction exampleUnmarshal
    [("sentiment", JValue.string "negative"), ("reasoning", JValue.string "kata kunci negatif")]
    "negative" rfl
  rw [hP] at h₁
  rw [hN] at h₂
  refine ⟨h₁.2.1 ?_, h₁.2.2, h₂.1 "kata kunci negatif" rfl (by decide)⟩
  intro r hr
  cases hr

/-- C3. For every text, `extractSentimentFromString` returns `Positif` if the
text contains the token `positif`; otherwise `Negatif` if it contains `negatif`;
otherwise `Netral`, whether or not it contains `netral`. For every string that
is not JSON, `extractSentimentFromResult` and
`extractSentimentAndReasoningFromResult` return exactly this label, with no
error and no reasoning. A text contains a token when the characters of the
token are a contiguous run of the characters of the text, which for these
tokens is the same as containment of the UTF-8 bytes (`bytes_infix_iff`). -/
theorem C3_heuristic_scan (jsonUnmarshal : String → Option JValue) (text : String) :
    ("positif".data <:+: text.data →
        LLMClient.extractSentimentFromString text = some "Positif") ∧
    (¬ "positif".data <:+: text.data → "negatif".data <:+: text.data →
        LLMClient.extractSentimentFromString text = some "Negatif") ∧
    (¬ "positif".data <:+: text.data → ¬ "negatif".data <:+: text.data →
        LLMClient.extractSentimentFromString text = some "Netral") ∧
    (jsonUnmarshal text = none →
      ∃ l, LLMClient.extractSentimentFromString text = some l ∧
        LLMClient.extractSentimentFromResult jsonUnmarshal (JValue.string text) =
          Outcome.ok l ∧
        LLMClient.extractSentimentAndReasoningFromResult jsonUnmarshal (JValue.string text) =
          Outcome.ok (l, none)) := by
  have hP := bytes_infix_iff "positif" text (by decide)
  have hN := bytes_infix_iff "negatif" text (by decide)
  refine ⟨?_, ?_, ?_, ?_⟩
  · intro h
    rw [LLMClient.extractSentimentFromString_eq, if_pos (hP.mpr h)]
  · intro h₁ h₂
    rw [LLMClient.extractSentimentFromString_eq, if_neg (fun h => h₁ (hP.mp h)),
      if_pos (hN.mpr h₂)]
  · intro h₁ h₂
    rw [LLMClient.extractSentimentFromString_eq, if_neg (fun h => h₁ (hP.mp h)),
      if_neg (fun h => h₂ (hN.mp h))]
  · intro hjson
    obtain ⟨l, hl, _⟩ := LLMClient.extractSentimentFromString_mem text
    refine ⟨l, hl, ?_, ?_⟩
    · simp only [LLMClient.extractSentimentFromResult, unmarshalMap, hjson, hl]
      rfl
    · simp only [LLMClient.extractSentimentAndReasoningFromResult, unmarshalMap, hjson, hl]
      rfl

/-- C3 at three texts that are not JSON: one holding `negatif` before `positif`
yields `Positif`; the two texts of the specification yield `Netral`, the first
through the token `netral` and the second through the default. -/
theorem C3_heuristic_scan_witness :
    LLMClient.extractSentimentFromString "tidak negatif, malah positif" = some "Positif" ∧
    LLMClient.extractSentimentFromString "Jawaban ini terasa netral dan objektif" =
      some "Netral" ∧
    LLMClient.extractSentimentFromResult exampleUnmarshal
      (JValue.string "random unparseable gibberish with no keywords") = Outcome.ok "Netral" ∧
    LLMClient.extractSentimentAndReasoningFromResult exampleUnmarshal
      (JValue.string "random unparseable gibberish with no keywords") =
        Outcome.ok ("Netral", none) := by
  have hscan := (C3_heuristic_scan exampleUnmarshal
    "random unparseable gibberish with no keywords").2.2.1 (by decide) (by decide)
  obtain ⟨l, hl, h₁, h₂⟩ := (C3_heuristic_scan exampleUnmarshal
    "random unparseable gibberish with no keywords").2.2.2 rfl
  have hnet : l = "Netral" := by
    rw [hscan] at hl
    exact (Option.some.inj hl).symm
  subst hnet
  exact ⟨(C3_heuristic_scan exampleUnmarshal "tidak negatif, malah positif").1 (by decide),
    (C3_heuristic_scan exampleUnmarshal "Jawaban ini terasa netral dan objektif").2.2.1
      (by decide) (by decide), h₁, h₂⟩

/-- C5. `normalizeSentiment` is idempotent, and each of the three canonical
labels is a fixed point. -/
theorem C5_normalize_idempotent (x : String) :
    LLMClient.normalizeSentiment (LLMClient.normalizeSentiment x) =
        LLMClient.normalizeSentiment x ∧
    LLMClient.normalizeSentiment "Positif" = "Positif" ∧
    LLMClient.normalizeSentiment "Negatif" = "Negatif" ∧
    LLMClient.normalizeSentiment "Netral" = "Netral" := by
  have hP : LLMClient.normalizeSentiment "Positif" = "Positif" := by decide
  have hN : LLMClient.normalizeSentiment "Negatif" = "Negatif" := by decide
  have hT : LLMClient.normalizeSentiment "Netral" = "Netral" := by decide
  refine ⟨?_, hP, hN, hT⟩
  rcases LLMClient.normalizeSentiment_cases x with h | h | h <;> rw [h] <;> assumption

/-- C4, as stated, fails. The reply text `["positif"]` is JSON and decodes to an
array; the decode step followed by the extraction of `AnalyzeSentiment` returns
`Netral`, while the heuristic scan of the raw text gives `Positif`. The reply
text with `sentiment` = 1 and `note` = `negatif` decodes to an object whose
`sentiment` is a number; the pipeline returns `Netral`, the scan of the raw text
gives `Negatif`. -/
theorem C4_raw_text_fallback_counterexample :
    (exampleUnmarshal "[\"positif\"]" = some (JValue.array [JValue.string "positif"]) ∧
      LLMClient.analyzeSentimentAfterCall exampleUnmarshal
        (LLMClient.decodeContent exampleUnmarshal "[\"positif\"]") = Outcome.ok "Netral" ∧
      LLMClient.extractSentimentFromString "[\"positif\"]" = some "Positif") ∧
    (exampleUnmarshal "\x7b\"sentiment\": 1, \"note\": \"negatif\"\x7d" =
        some (JValue.object [("sentiment", JValue.number 1), ("note", JValue.string "negatif")]) ∧
      LLMClient.analyzeSentimentAfterCall exampleUnmarshal
        (LLMClient.decodeContent exampleUnmarshal
          "\x7b\"sentiment\": 1, \"note\": \"negatif\"\x7d") = Outcome.ok "Netral" ∧
      LLMClient.extractSentimentFromString "\x7b\"sentiment\": 1, \"note\": \"negatif\"\x7d" =
        some "Negatif") :=
  ⟨⟨rfl, by decide, by decide⟩, ⟨rfl, by decide, by decide⟩⟩

/-- C4, amended. Whenever `json.Unmarshal` decodes the remote content without
error to a value that is neither a string nor an object with a string-valued
`sentiment` (an array, a number, a boolean, null, an object lacking
`sentiment`, or an object whose `sentiment` is not a string), the decode step of
`CallTelkomAI` followed by the extraction of `LLMClient.AnalyzeSentiment`
returns the label `Netral`, whatever the raw text holds. Content on which
`json.Unmarshal` returns an error (text that is not JSON, or JSON with a number
outside the range of `float64`) is kept as the raw string, and the pipeline
returns the label the heuristic scan gives on it. -/
theorem C4_nonconforming_json_is_netral (jsonUnmarshal : String → Option JValue)
    (content : String) :
    (∀ v, jsonUnmarshal content = some v →
      (∀ s, v ≠ JValue.string s) →
      (∀ fields s, v = JValue.object fields →
        fields.lookup "sentiment" ≠ some (JValue.string s)) →
      LLMClient.analyzeSentimentAfterCall jsonUnmarshal
        (LLMClient.decodeContent jsonUnmarshal content) = Outcome.ok "Netral") ∧
    (jsonUnmarshal content = none →
      ∃ l, LLMClient.extractSentimentFromString content = some l ∧
        LLMClient.analyzeSentimentAfterCall jsonUnmarshal
          (LLMClient.decodeContent jsonUnmarshal content) = Outcome.ok l) := by
  constructor
  · intro v hv hstr hsent
    have herr : LLMClient.extractSentimentFromResult jsonUnmarshal v =
        Outcome.error "unable to extract sentiment from result" := by
      unfold LLMClient.extractSentimentFromResult
      split
      · next fields =>
        split
        · next s hlook => exact absurd hlook (hsent fields s rfl)
        · rfl
      · next s => exact absurd rfl (hstr s)
      · rfl
    simp only [LLMClient.decodeContent, hv, LLMClient.analyzeSentimentAfterCall, herr]
  · intro hnone
    obtain ⟨l, hl, _⟩ := LLMClient.extractSentimentFromString_mem content
    refine ⟨l, hl, ?_⟩
    simp only [LLMClient.decodeContent, hnone, LLMClient.analyzeSentimentAfterCall,
      LLMClient.extractSentimentFromResult, unmarshalMap, hl]
    rfl

/-- C4, amended, at the reply text `["positif"]`, which decodes to an array and
yields `Netral`, and at the reply text `[1e400, "positif"]`, on which
`json.Unmarshal` returns an error (the number is outside the range of
`float64`): it is scanned as a raw string and yields `Positif`. -/
theorem C4_nonconforming_json_is_netral_witness :
    LLMClient.analyzeSentimentAfterCall exampleUnmarshal
      (LLMClient.decodeContent exampleUnmarshal "[\"positif\"]") = Outcome.ok "Netral" ∧
    LLMClient.analyzeSentimentAfterCall exampleUnmarshal
      (LLMClient.decodeContent exampleUnmarshal "[1e400, \"positif\"]") =
        Outcome.ok "Positif" := by
  have hscan : LLMClient.extractSentimentFromString "[1e400, \"positif\"]" = some "Positif" := by
    decide
  obtain ⟨l, hl, hpipe⟩ :=
    (C4_nonconforming_json_is_netral exampleUnmarshal "[1e400, \"positif\"]").2 rfl
  have hpos : l = "Positif" := by
    rw [hscan] at hl
    exact (Option.some.inj hl).symm
  subst hpos
  exact ⟨(C4_nonconforming_json_is_netral exampleUnmarshal "[\"positif\"]").1
    (JValue.array [JValue.string "positif"]) rfl
    (fun _ h => JValue.noConfusion h) (fun _ _ h => JValue.noConfusion h), hpipe⟩

/-- C6, as stated, fails. `pOsItIf` equals `positif` and `PoSITIVE` equals
`positive` when letter case is ignored, and `nEgAtIf` equals `negatif`, yet
`normalizeSentiment` maps all three to `Netral`. -/
theorem C6_case_insensitive_counterexample :
    "pOsItIf".data.map Char.toLower = "positif".data ∧
    LLMClient.normalizeSentiment "pOsItIf" = "Netral" ∧
    "PoSITIVE".data.map Char.toLower = "positive".data ∧
    LLMClient.normalizeSentiment "PoSITIVE" = "Netral" ∧
    "nEgAtIf".data.map Char.toLower = "negatif".data ∧
    LLMClient.normalizeSentiment "nEgAtIf" = "Netral" := by
  decide

/-- C6, amended. `normalizeSentiment x` is `Positif` exactly when `x` is one of
the six spellings `Positif`, `positif`, `POSITIF`, `Positive`, `positive`,
`POSITIVE`; it is `Negatif` exactly when `x` is one of `Negatif`, `negatif`,
`NEGATIF`, `Negative`, `negative`, `NEGATIVE`; every other string, the six
spellings `Netral`, `netral`, `NETRAL`, `Neutral`, `neutral`, `NEUTRAL` among
them, maps to `Netral`. -/
theorem C6_normalize_table (x : String) :
    (LLMClient.normalizeSentiment x = "Positif" ↔
      x ∈ ["Positif", "positif", "POSITIF", "Positive", "positive", "POSITIVE"]) ∧
    (LLMClient.normalizeSentiment x = "Negatif" ↔
      x ∈ ["Negatif", "negatif", "NEGATIF", "Negative", "negative", "NEGATIVE"]) ∧
    (LLMClient.normalizeSentiment x = "Netral" ↔
      x ∉ ["Positif", "positif", "POSITIF", "Positive", "positive", "POSITIVE"] ∧
      x ∉ ["Negatif", "negatif", "NEGATIF", "Negative", "negative", "NEGATIVE"]) := by
  have hPN : ("Positif" : String) ≠ "Negatif" := by decide
  have hPT : ("Positif" : String) ≠ "Netral" := by decide
  have hNT : ("Negatif" : String) ≠ "Netral" := by decide
  by_cases hp : x ∈ ["Positif", "positif", "POSITIF", "Positive", "positive", "POSITIVE"]
  · have hpos : LLMClient.normalizeSentiment x = "Positif" := by
      unfold LLMClient.normalizeSentiment
      rw [if_pos (by simpa using hp)]
    have hn : x ∉ ["Negatif", "negatif", "NEGATIF", "Negative", "negative", "NEGATIVE"] := by
      simp only [List.mem_cons, List.mem_singleton, List.not_mem_nil, or_false] at hp ⊢
      rcases hp with h | h | h | h | h | h <;> subst h <;> decide
    rw [hpos]
    exact ⟨⟨fun _ => hp, fun _ => rfl⟩, ⟨fun h => absurd h hPN, fun h => absurd h hn⟩,
      ⟨fun h => absurd h hPT, fun h => absurd hp h.1⟩⟩
  · by_cases hn : x ∈ ["Negatif", "negatif", "NEGATIF", "Negative", "negative", "NEGATIVE"]
    · have hneg : LLMClient.normalizeSentiment x = "Negatif" := by
        unfold LLMClient.normalizeSentiment
        rw [if_neg (by simpa using hp), if_pos (by simpa using hn)]
      rw [hneg]
      exact ⟨⟨fun h => absurd h.symm hPN, fun h => absurd h hp⟩, ⟨fun _ => hn, fun _ => rfl⟩,
        ⟨fun h => absurd h hNT, fun h => absurd hn h.2⟩⟩
    · have hnet : LLMClient.normalizeSentiment x = "Netral" := by
        unfold LLMClient.normalizeSentiment
        rw [if_neg (by simpa using hp), if_neg (by simpa using hn)]
        split_ifs <;> rfl
      rw [hnet]
      exact ⟨⟨fun h => absurd h.symm hPT, fun h => absurd h hp⟩,
        ⟨fun h => absurd h.symm hNT, fun h => absurd h hn⟩, ⟨fun _ => ⟨hp, hn⟩, fun _ => rfl⟩⟩

/-- C7 on the code. `contains` compares bytes and `extractSentimentFromString`
does not lower-case its text: `POSITIF`, which is `positif` once lower-cased,
is not found to contain `positif`, and the scan returns `Netral` for `POSITIF`,
for `Sentimen: Positif` and for `NEGATIF`. -/
theorem C7_scan_is_case_sensitive :
    "POSITIF".data.map Char.toLower = "positif".data ∧
    contains (bytes "POSITIF") (bytes "positif") = some false ∧
    LLMClient.extractSentimentFromString "POSITIF" = some "Netral" ∧
    LLMClient.extractSentimentFromString "Sentimen: Positif" = some "Netral" ∧
    LLMClient.extractSentimentFromString "NEGATIF" = some "Netral" := by
  decide

/-! ## The validator -/

/-- A string has at least as many bytes as characters. -/
theorem length_le_len (s : String) : s.length ≤ len s := by
  have h : ∀ l : List Char, l.length ≤ (l.flatMap String.utf8EncodeChar).length := by
    intro l
    induction l with
    | nil => simp
    | cons c cs ih =>
      have hc : 0 < c.utf8Size := Char.utf8Size_pos c
      simp only [List.flatMap_cons, List.length_cons, List.length_append,
        String.length_utf8EncodeChar]
      omega
  exact h s.data

/-- Trimming leaves nothing exactly when every character is a space. -/
theorem TrimSpace_eq_empty_iff (s : String) :
    TrimSpace s = "" ↔ ∀ c ∈ s.data, isSpace c = true := by
  unfold TrimSpace
  have hmk : ∀ l : List Char, String.mk l = "" ↔ l = [] := by
    intro l
    constructor
    · intro h
      exact congrArg String.data h
    · intro h
      rw [h]
  rw [hmk, List.reverse_eq_nil_iff, List.dropWhile_eq_nil_iff]
  constructor
  · intro h
    by_contra hne
    have hD : List.dropWhile isSpace s.data ≠ [] := by
      intro hnil
      exact hne (List.dropWhile_eq_nil_iff.mp hnil)
    have hhead := List.head_dropWhile_not isSpace s.data hD
    have hmem : (List.dropWhile isSpace s.data).head hD ∈
        (List.dropWhile isSpace s.data).reverse :=
      List.mem_reverse.mpr (List.head_mem hD)
    have := h _ hmem
    rw [this] at hhead
    exact Bool.noConfusion hhead
  · intro h x hx
    have hnil : List.dropWhile isSpace s.data = [] := List.dropWhile_eq_nil_iff.mpr h
    rw [hnil] at hx
    simp at hx

namespace SentimentService

/-- The validator returns no error exactly for a request whose two texts are
not blank and hold at most 1000 and 2000 bytes. -/
theorem validateRequest_ok_iff (req : SentimentRequest) :
    validateRequest (some req) = Except.ok () ↔
      (¬ ∀ c ∈ req.TextPertanyaan.data, isSpace c = true) ∧
      (¬ ∀ c ∈ req.TextJawaban.data, isSpace c = true) ∧
      len req.TextPertanyaan ≤ 1000 ∧ len req.TextJawaban ≤ 2000 := by
  unfold validateRequest
  simp only [TrimSpace_eq_empty_iff]
  split_ifs with h₁ h₂ h₃ h₄
  · exact ⟨fun h => h.elim, fun h => absurd h₁ h.1⟩
  · exact ⟨fun h => h.elim, fun h => absurd h₂ h.2.1⟩
  · exact ⟨fun h => h.elim, fun h => absurd h.2.2.1 (by omega)⟩
  · exact ⟨fun h => h.elim, fun h => absurd h.2.2.2 (by omega)⟩
  · exact ⟨fun _ => ⟨h₁, h₂, by omega, by omega⟩, fun _ => rfl⟩

end SentimentService

/-- C8. `validateRequest` returns an error for the nil request and for every
request whose `text_pertanyaan` or `text_jawaban` is empty or only whitespace,
whose `text_pertanyaan` has more than 1000 characters, or whose `text_jawaban`
has more than 2000 characters; and on each such non-nil request
`SentimentService.AnalyzeSentiment` returns that error and sends no request to
the remote endpoint. -/
theorem C8_validator_rejects (jsonUnmarshal : String → Option JValue)
    (post : LLMRequest → HTTPReply) :
    SentimentService.validateRequest none = Except.error "request cannot be nil" ∧
    ∀ req : SentimentRequest,
      ((∀ c ∈ req.TextPertanyaan.data, isSpace c = true) ∨
        (∀ c ∈ req.TextJawaban.data, isSpace c = true) ∨
        req.TextPertanyaan.length > 1000 ∨ req.TextJawaban.length > 2000) →
      ∃ err, SentimentService.validateRequest (some req) = Except.error err ∧
        SentimentService.AnalyzeSentiment jsonUnmarshal post (some req) =
          (Outcome.error err, []) := by
  refine ⟨rfl, ?_⟩
  intro req hbad
  have hnot : SentimentService.validateRequest (some req) ≠ Except.ok () := by
    intro hok
    obtain ⟨h₁, h₂, h₃, h₄⟩ := (SentimentService.validateRequest_ok_iff req).mp hok
    have l₁ := length_le_len req.TextPertanyaan
    have l₂ := length_le_len req.TextJawaban
    rcases hbad with h | h | h | h
    · exact h₁ h
    · exact h₂ h
    · omega
    · omega
  cases hv : SentimentService.validateRequest (some req) with
  | error err =>
    refine ⟨err, rfl, ?_⟩
    simp only [SentimentService.AnalyzeSentiment, hv]
  | ok u =>
    exact absurd hv hnot

/-- C8 at a request whose question is two spaces: the validator's error comes
back and nothing is sent. -/
theorem C8_validator_rejects_witness :
    ∃ err, SentimentService.validateRequest
        (some { TextPertanyaan := "  ", TextJawaban := "bagus", Reasoning := none }) =
          Except.error err ∧
      SentimentService.AnalyzeSentiment exampleUnmarshal
        (fun _ => HTTPReply.response 200 "" [])
        (some { TextPertanyaan := "  ", TextJawaban := "bagus", Reasoning := none }) =
          (Outcome.error err, []) :=
  (C8_validator_rejects exampleUnmarshal (fun _ => HTTPReply.response 200 "" [])).2
    { TextPertanyaan := "  ", TextJawaban := "bagus", Reasoning := none }
    (Or.inl (by decide))

set_option maxRecDepth 100000 in
/-- C9 on the code. The length checks count bytes, not characters: a question of
501 characters `é` (1002 bytes), not blank, is rejected as exceeding 1000
characters, and an answer of 1001 such characters (2002 bytes) as exceeding 2000
characters. -/
theorem C9_length_check_counts_bytes :
    (String.mk (List.replicate 501 'é')).length = 501 ∧
    len (String.mk (List.replicate 501 'é')) = 1002 ∧
    SentimentService.validateRequest
        (some { TextPertanyaan := String.mk (List.replicate 501 'é'), TextJawaban := "ok",
                Reasoning := none }) =
      Except.error "text_pertanyaan exceeds maximum length of 1000 characters" ∧
    (String.mk (List.replicate 1001 'é')).length = 1001 ∧
    len (String.mk (List.replicate 1001 'é')) = 2002 ∧
    SentimentService.validateRequest
        (some { TextPertanyaan := "ok", TextJawaban := String.mk (List.replicate 1001 'é'),
                Reasoning := none }) =
      Except.error "text_jawaban exceeds maximum length of 2000 characters" := by
  refine ⟨?_, ?_, ?_, ?_, ?_, ?_⟩
  · decide
  · decide
  · rfl
  · decide
  · decide
  · rfl

/-! ## Upstream failures -/

namespace LLMClient

/-- `CallTelkomAI` on a reply that is not a 200 with at least one choice. -/
theorem CallTelkomAI_of_failure (jsonUnmarshal : String → Option JValue)
    (post : LLMRequest → HTTPReply) (messages : List LLMMessage) (modelName : String)
    (maxTokens : Int) (temperature : String) (statusCode : Int) (body : String)
    (choices : List LLMChoice)
    (hreply : post (LLMClient.buildRequest messages modelName maxTokens temperature) =
      HTTPReply.response statusCode body choices) :
    (statusCode ≠ 200 →
      (CallTelkomAI jsonUnmarshal post messages modelName maxTokens temperature).1 =
        Outcome.error ("response error " ++ toString statusCode ++ ": " ++ body)) ∧
    (statusCode = 200 → choices = [] →
      (CallTelkomAI jsonUnmarshal post messages modelName maxTokens temperature).1 =
        Outcome.error "no choices in response") := by
  constructor
  · intro hne
    simp only [CallTelkomAI, hreply, if_pos hne]
  · intro h200 hnil
    simp only [CallTelkomAI, hreply, hnil]
    rw [if_neg (by simpa using h200)]

theorem CallTelkomAI_error (jsonUnmarshal : String → Option JValue)
    (post : LLMRequest → HTTPReply)
    (hfail : ∀ request, ∃ statusCode body choices,
      post request = HTTPReply.response statusCode body choices ∧
        (statusCode ≠ 200 ∨ choices = []))
    (messages : List LLMMessage) (modelName : String) (maxTokens : Int)
    (temperature : String) :
    ∃ err sent, CallTelkomAI jsonUnmarshal post messages modelName maxTokens temperature =
      (Outcome.error err, sent) := by
  obtain ⟨statusCode, body, choices, hreply, hbad⟩ :=
    hfail (LLMClient.buildRequest messages modelName maxTokens temperature)
  by_cases h200 : statusCode ≠ 200
  · exact ⟨"response error " ++ toString statusCode ++ ": " ++ body,
      [buildRequest messages modelName maxTokens temperature],
      by simp only [CallTelkomAI, hreply, if_pos h200]⟩
  · have hnil : choices = [] := hbad.resolve_left h200
    exact ⟨"no choices in response", [buildRequest messages modelName maxTokens temperature],
      by simp only [CallTelkomAI, hreply, hnil, if_neg h200]⟩

end LLMClient

/-- C10. Let every reply of the remote endpoint be a response whose status is
not 200, or whose status is 200 and whose decoded `choices` list is empty. Then
`CallTelkomAI` returns an error: for a status other than 200 its message is
`response error <status>: <body>`, carrying the status code and the response
body, and for status 200 with no choices it is `no choices in response`. In
both cases `LLMClient.AnalyzeSentiment`, `LLMClient.AnalyzeSentimentWithReasoning`
and `SentimentService.AnalyzeSentiment` (on a non-nil request) return an error:
no label, no `Netral`, no response object. -/
theorem C10_upstream_failure_is_error (jsonUnmarshal : String → Option JValue)
    (post : LLMRequest → HTTPReply)
    (hfail : ∀ request, ∃ statusCode body choices,
      post request = HTTPReply.response statusCode body choices ∧
        (statusCode ≠ 200 ∨ choices = [])) :
    (∀ messages modelName maxTokens temperature statusCode body choices,
      post (LLMClient.buildRequest messages modelName maxTokens temperature) =
        HTTPReply.response statusCode body choices →
      (LLMClient.CallTelkomAI jsonUnmarshal post messages modelName maxTokens temperature).1 =
        Outcome.error
          (if statusCode ≠ 200 then "response error " ++ toString statusCode ++ ": " ++ body
           else "no choices in response")) ∧
    (∀ textPertanyaan textJawaban, ∃ err,
      (LLMClient.AnalyzeSentiment jsonUnmarshal post textPertanyaan textJawaban).1 =
        Outcome.error err) ∧
    (∀ textPertanyaan textJawaban, ∃ err,
      (LLMClient.AnalyzeSentimentWithReasoning jsonUnmarshal post textPertanyaan textJawaban).1 =
        Outcome.error err) ∧
    (∀ req : SentimentRequest, ∃ err,
      (SentimentService.AnalyzeSentiment jsonUnmarshal post (some req)).1 =
        Outcome.error err) := by
  have hA : ∀ textPertanyaan textJawaban, ∃ err,
      (LLMClient.AnalyzeSentiment jsonUnmarshal post textPertanyaan textJawaban).1 =
        Outcome.error err := by
    intro textPertanyaan textJawaban
    obtain ⟨err, sent, hcall⟩ := LLMClient.CallTelkomAI_error jsonUnmarshal post hfail
      (LLMClient.buildMessages LLMClient.systemPrompt
        "Analisis sentimen jawaban tersebut berdasarkan konteks pertanyaan."
        textPertanyaan textJawaban) "telkom-ai-instruct" 100 "0.0"
    exact ⟨err, by simp only [LLMClient.AnalyzeSentiment, hcall]⟩
  have hR : ∀ textPertanyaan textJawaban, ∃ err,
      (LLMClient.AnalyzeSentimentWithReasoning jsonUnmarshal post
        textPertanyaan textJawaban).1 = Outcome.error err := by
    intro textPertanyaan textJawaban
    obtain ⟨err, sent, hcall⟩ := LLMClient.CallTelkomAI_error jsonUnmarshal post hfail
      (LLMClient.buildMessages LLMClient.systemPromptWithReasoning
        "Analisis sentimen jawaban tersebut berdasarkan konteks pertanyaan dan berikan penjelasan lengkap."
        textPertanyaan textJawaban) "telkom-ai-instruct" 300 "0.1"
    exact ⟨err, by simp only [LLMClient.AnalyzeSentimentWithReasoning, hcall]⟩
  refine ⟨?_, hA, hR, ?_⟩
  · intro messages modelName maxTokens temperature statusCode body choices hreply
    obtain ⟨statusCode', body', choices', hreply', hbad⟩ :=
      hfail (LLMClient.buildRequest messages modelName maxTokens temperature)
    rw [hreply] at hreply'
    simp only [HTTPReply.response.injEq] at hreply'
    obtain ⟨rfl, rfl, rfl⟩ := hreply'
    have h := LLMClient.CallTelkomAI_of_failure jsonUnmarshal post messages modelName
      maxTokens temperature statusCode body choices hreply
    by_cases h200 : statusCode ≠ 200
    · rw [if_pos h200]
      exact h.1 h200
    · rw [if_neg h200]
      exact h.2 (not_not.mp h200) (hbad.resolve_left h200)
  · intro req
    cases hv : SentimentService.validateRequest (some req) with
    | error err => exact ⟨err, by simp only [SentimentService.AnalyzeSentiment, hv]⟩
    | ok u =>
      simp only [SentimentService.AnalyzeSentiment, hv]
      split_ifs
      · obtain ⟨err, herr⟩ := hR req.TextPertanyaan req.TextJawaban
        refine ⟨err, ?_⟩
        generalize LLMClient.AnalyzeSentimentWithReasoning jsonUnmarshal post
          req.TextPertanyaan req.TextJawaban = p at herr
        obtain ⟨out, sent⟩ := p
        simp only at herr
        subst herr
        rfl
      · obtain ⟨err, herr⟩ := hA req.TextPertanyaan req.TextJawaban
        refine ⟨err, ?_⟩
        generalize LLMClient.AnalyzeSentiment jsonUnmarshal post
          req.TextPertanyaan req.TextJawaban = p at herr
        obtain ⟨out, sent⟩ := p
        simp only at herr
        subst herr
        rfl

/-- C10 at an endpoint that always answers status 500 with the body
`internal error`: `CallTelkomAI` returns the error
`response error 500: internal error`, and the service returns an error for a
valid request that asks for reasoning. -/
theorem C10_upstream_failure_is_error_witness :
    (LLMClient.CallTelkomAI exampleUnmarshal (fun _ => HTTPReply.response 500 "internal error" [])
        [] "telkom-ai-instruct" 100 "0.0").1 =
      Outcome.error "response error 500: internal error" ∧
    (∃ err, (SentimentService.AnalyzeSentiment exampleUnmarshal
        (fun _ => HTTPReply.response 500 "internal error" [])
        (some { TextPertanyaan := "Bagaimana layanan kami?", TextJawaban := "Sangat memuaskan",
                Reasoning := some true })).1 = Outcome.error err) := by
  have h := C10_upstream_failure_is_error exampleUnmarshal
    (fun _ => HTTPReply.response 500 "internal error" [])
    (fun _ => ⟨500, "internal error", [], rfl, Or.inl (by decide)⟩)
  exact ⟨h.1 [] "telkom-ai-instruct" 100 "0.0" 500 "internal error" [] rfl, h.2.2.2 _⟩

/-! ## The two substring checks, and the two extractors -/

/-- C11. For every text and substr, as byte sequences (the empty one and a
substr longer than the text included), `contains(text, substr)` and
`findSubstring(text, substr)` return the same result, and both return true
exactly when substr occurs as a contiguous run of bytes inside text. Neither
stops on a slice expression: both have a result, and each slice expression they
evaluate (the head and the tail of the text when it is longer than substr, the
window at every index `i` that passes the loop condition) is in range. -/
theorem C11_contains_eq_findSubstring (text substr : List UInt8) :
    contains text substr = findSubstring text substr ∧
    contains text substr = some (decide (substr <:+: text)) ∧
    findSubstring text substr = some (decide (substr <:+: text)) ∧
    (text.length > substr.length →
      (slice text 0 (substr.length : Int)).isSome = true ∧
      (slice text ((text.length : Int) - (substr.length : Int)) (text.length : Int)).isSome
        = true) ∧
    (∀ i : Nat, (i : Int) ≤ (text.length : Int) - (substr.length : Int) →
      (slice text (i : Int) ((i : Int) + (substr.length : Int))).isSome = true) := by
  refine ⟨?_, contains_eq text substr, findSubstring_eq text substr, ?_, ?_⟩
  · rw [contains_eq, findSubstring_eq]
  · intro hgt
    have h₁ := slice_of_le text 0 substr.length (Nat.zero_le _) (by omega)
    have h₂ := slice_of_le text (text.length - substr.length) text.length (by omega)
      (le_refl _)
    rw [Nat.cast_sub (by omega)] at h₂
    constructor
    · rw [show ((0 : Nat) : Int) = 0 from rfl] at h₁
      rw [h₁]
      rfl
    · rw [h₂]
      rfl
  · intro i hi
    have h := slice_of_le text i (i + substr.length) (by omega) (by omega)
    rw [Nat.cast_add] at h
    rw [h]
    rfl

/-- C11 at the text `xxab` and the substr `ab`, and at a substr longer than the
text: the text is longer than `ab`, its head and tail slices are in range, and
both functions find `ab`; neither finds `abc` in `ab`. -/
theorem C11_contains_eq_findSubstring_witness :
    ((slice (bytes "xxab") 0 ((bytes "ab").length : Int)).isSome = true ∧
      (slice (bytes "xxab") (((bytes "xxab").length : Int) - ((bytes "ab").length : Int))
        ((bytes "xxab").length : Int)).isSome = true) ∧
    contains (bytes "xxab") (bytes "ab") = some true ∧
    findSubstring (bytes "xxab") (bytes "ab") = some true ∧
    contains (bytes "ab") (bytes "abc") = findSubstring (bytes "ab") (bytes "abc") ∧
    findSubstring (bytes "ab") (bytes "abc") = some false := by
  have h := C11_contains_eq_findSubstring (bytes "xxab") (bytes "ab")
  have h' := C11_contains_eq_findSubstring (bytes "ab") (bytes "abc")
  have hd : decide (bytes "ab" <:+: bytes "xxab") = true := by decide
  have hd' : decide (bytes "abc" <:+: bytes "ab") = false := by decide
  refine ⟨h.2.2.2.1 (by decide), ?_, ?_, h'.1, ?_⟩
  · rw [h.2.1, hd]
  · rw [h.2.2.1, hd]
  · rw [h'.2.2.1, hd']

namespace LLMClient

/-- On every value the two extractors either both return, with the same label,
or both return their error; the latter exactly on a value that is neither a
string nor an object with a string-valued `sentiment`. -/
theorem extractors_agree (jsonUnmarshal : String → Option JValue) (v : JValue) :
    (((∃ s, v = JValue.string s) ∨
        ∃ fields s, v = JValue.object fields ∧
          fields.lookup "sentiment" = some (JValue.string s)) ∧
      ∃ l r, extractSentimentFromResult jsonUnmarshal v = Outcome.ok l ∧
        extractSentimentAndReasoningFromResult jsonUnmarshal v = Outcome.ok (l, r)) ∨
    (((∀ s, v ≠ JValue.string s) ∧
        ∀ fields s, v = JValue.object fields →
          fields.lookup "sentiment" ≠ some (JValue.string s)) ∧
      extractSentimentFromResult jsonUnmarshal v =
        Outcome.error "unable to extract sentiment from result" ∧
      extractSentimentAndReasoningFromResult jsonUnmarshal v =
        Outcome.error "unable to extract sentiment and reasoning from result") := by
  have hscan : ∀ text, ∃ l r,
      Outcome.ofScan (extractSentimentFromString text) = Outcome.ok l ∧
      Outcome.ofScan ((extractSentimentFromString text).map fun s => (s, (none : Option String)))
        = Outcome.ok (l, r) := by
    intro text
    obtain ⟨l, hl, _⟩ := extractSentimentFromString_mem text
    exact ⟨l, none, by rw [hl]; rfl, by rw [hl]; rfl⟩
  cases v with
  | null =>
    exact Or.inr ⟨⟨fun _ h => JValue.noConfusion h, fun _ _ h => JValue.noConfusion h⟩, rfl, rfl⟩
  | bool b =>
    exact Or.inr ⟨⟨fun _ h => JValue.noConfusion h, fun _ _ h => JValue.noConfusion h⟩, rfl, rfl⟩
  | number x =>
    exact Or.inr ⟨⟨fun _ h => JValue.noConfusion h, fun _ _ h => JValue.noConfusion h⟩, rfl, rfl⟩
  | array items =>
    exact Or.inr ⟨⟨fun _ h => JValue.noConfusion h, fun _ _ h => JValue.noConfusion h⟩, rfl, rfl⟩
  | string text =>
    refine Or.inl ⟨Or.inl ⟨text, rfl⟩, ?_⟩
    simp only [extractSentimentFromResult, extractSentimentAndReasoningFromResult]
    cases hm : unmarshalMap jsonUnmarshal text with
    | none => exact hscan text
    | some sentimentResult =>
      simp only []
      split
      · next s hs =>
        obtain ⟨r, hr⟩ := withReasoning_label s (sentimentResult.lookup "reasoning")
        exact ⟨_, r, rfl, by simp only [hs, hr]⟩
      · exact hscan text
  | object fields =>
    by_cases hs : ∃ s, fields.lookup "sentiment" = some (JValue.string s)
    · obtain ⟨s, hs⟩ := hs
      refine Or.inl ⟨Or.inr ⟨fields, s, rfl, hs⟩, ?_⟩
      obtain ⟨r, hr⟩ := withReasoning_label s (fields.lookup "reasoning")
      exact ⟨normalizeSentiment s, r, by simp only [extractSentimentFromResult, hs],
        by simp only [extractSentimentAndReasoningFromResult, hs, hr]⟩
    · have hno : ∀ s, fields.lookup "sentiment" ≠ some (JValue.string s) :=
        fun s h => hs ⟨s, h⟩
      refine Or.inr ⟨⟨fun _ h => JValue.noConfusion h, ?_⟩, ?_, ?_⟩
      · intro fields' s h
        cases h
        exact hno s
      · simp only [extractSentimentFromResult]
      · simp only [extractSentimentAndReasoningFromResult]

end LLMClient

/-- C12. For every decoded value `v` and every JSON decoder,
`extractSentimentAndReasoningFromResult` returns an error exactly when
`extractSentimentFromResult` does, namely when `v` is neither a string nor an
object with a string-valued `sentiment`; otherwise both return, with the same
label. Hence, whenever the reasoning extractor fails inside
`AnalyzeSentimentWithReasoning`, the label-only retry fails too and the result
is the label `Netral` without reasoning. -/
theorem C12_extractors_agree (jsonUnmarshal : String → Option JValue) (v : JValue) :
    ((∃ e, LLMClient.extractSentimentAndReasoningFromResult jsonUnmarshal v = Outcome.error e) ↔
      ∃ e, LLMClient.extractSentimentFromResult jsonUnmarshal v = Outcome.error e) ∧
    ((∃ e, LLMClient.extractSentimentFromResult jsonUnmarshal v = Outcome.error e) ↔
      (∀ s, v ≠ JValue.string s) ∧
        ∀ fields s, v = JValue.object fields →
          fields.lookup "sentiment" ≠ some (JValue.string s)) ∧
    ((¬ ∃ e, LLMClient.extractSentimentFromResult jsonUnmarshal v = Outcome.error e) →
      ∃ l r, LLMClient.extractSentimentFromResult jsonUnmarshal v = Outcome.ok l ∧
        LLMClient.extractSentimentAndReasoningFromResult jsonUnmarshal v = Outcome.ok (l, r)) ∧
    (∀ l r, LLMClient.extractSentimentAndReasoningFromResult jsonUnmarshal v = Outcome.ok (l, r) →
      LLMClient.extractSentimentFromResult jsonUnmarshal v = Outcome.ok l) ∧
    (∀ e, LLMClient.extractSentimentAndReasoningFromResult jsonUnmarshal v = Outcome.error e →
      (∃ e', LLMClient.extractSentimentFromResult jsonUnmarshal v = Outcome.error e') ∧
      LLMClient.analyzeSentimentWithReasoningAfterCall jsonUnmarshal v =
        Outcome.ok ("Netral", none)) := by
  rcases LLMClient.extractors_agree jsonUnmarshal v with
    ⟨hshape, l, r, h₁, h₂⟩ | ⟨hshape, h₁, h₂⟩
  · have hnoerr₁ : ¬ ∃ e, LLMClient.extractSentimentFromResult jsonUnmarshal v =
        Outcome.error e := by
      rintro ⟨e, he⟩
      rw [h₁] at he
      cases he
    have hnoerr₂ : ¬ ∃ e, LLMClient.extractSentimentAndReasoningFromResult jsonUnmarshal v =
        Outcome.error e := by
      rintro ⟨e, he⟩
      rw [h₂] at he
      cases he
    refine ⟨⟨fun h => absurd h hnoerr₂, fun h => absurd h hnoerr₁⟩,
      ⟨fun h => absurd h hnoerr₁, ?_⟩, fun _ => ⟨l, r, h₁, h₂⟩, ?_, ?_⟩
    · rintro ⟨hstr, hobj⟩
      rcases hshape with ⟨s, hs⟩ | ⟨fields, s, hv, hs⟩
      · exact absurd hs (hstr s)
      · exact absurd hs (hobj fields s hv)
    · intro l' r' h
      rw [h₂] at h
      cases h
      exact h₁
    · intro e he
      exact absurd ⟨e, he⟩ hnoerr₂
  · refine ⟨⟨fun _ => ⟨_, h₁⟩, fun _ => ⟨_, h₂⟩⟩, ⟨fun _ => hshape, fun _ => ⟨_, h₁⟩⟩,
      fun h => absurd ⟨_, h₁⟩ h, ?_, ?_⟩
    · intro l r h
      rw [h₂] at h
      cases h
    · intro e _
      refine ⟨⟨_, h₁⟩, ?_⟩
      simp only [LLMClient.analyzeSentimentWithReasoningAfterCall, h₁, h₂]

/-- C12 at the decoded array `["positif"]`: the reasoning extractor fails, so
does the label-only extractor, and the analysis returns `Netral` without
reasoning. -/
theorem C12_extractors_agree_witness :
    (∃ e', LLMClient.extractSentimentFromResult exampleUnmarshal
        (JValue.array [JValue.string "positif"]) = Outcome.error e') ∧
    LLMClient.analyzeSentimentWithReasoningAfterCall exampleUnmarshal
        (JValue.array [JValue.string "positif"]) = Outcome.ok ("Netral", none) :=
  (C12_extractors_agree exampleUnmarshal (JValue.array [JValue.string "positif"])).2.2.2.2
    "unable to extract sentiment and reasoning from result" rfl

end SentimentApi
